import Mathlib

/-!
# Verification of the photo-meta AI-detection pipeline

A shallow embedding, in Lean 4, of the decision logic of the photo-meta
repository:

* the heuristic classifier `detectAIGeneration` (src/src/App.tsx lines 22-106
  and the identical copy in src/unnamed/part_001 lines 92-176);
* the remote verifier `GeminiService.detectAIImage` (src/src/App.tsx lines
  518-617): configuration gating, markdown code-fence stripping of the model
  reply, and the `||`-defaulting of the four result keys;
* the orchestrator's analysis-record slot as updated by `processFile`
  (src/unnamed/part_001 lines 178-243): the React `setAnalysis` calls are
  modelled as events applied to an `Option ImageAnalysis` state.

JavaScript semantics are embedded as follows: string truthiness is
"non-empty", number truthiness is "non-zero" (numbers that occur are
integers; NaN does not arise for these fields), `null`/`undefined` are falsy,
arrays are truthy; `String.prototype.includes` is substring containment;
`toLowerCase`/`trim` are modelled on the character lists of Lean strings
(the tags scanned by the classifier are ASCII keyword matches, so the
ASCII-only `Char.toLower` is adequate).
-/

/-! ## Metadata model (src/src/App.tsx lines 4-15, src/unnamed/part_001 lines 13-25)

`ExifReader` tags are records whose `description` field the classifier
reads; a tag name can also map to a raw value whose only role in the
classifier is its truthiness. -/

/-- A decoded metadata tag: the classifier only ever reads `description`. -/
structure MetadataTag where
  description : String
deriving DecidableEq, Repr

/-- The fields of the decoded metadata mapping that `detectAIGeneration`
inspects.  The four text fields hold `Option MetadataTag` (a missing key is
`none`); `Dream`, `prompt`, `parameters` and the `"sd-metadata"` key (field
`sdMetadata`) are used only for their truthiness, embedded as `Bool`:
`true` means "key present with a truthy value". -/
structure ImageMetadata where
  Software : Option MetadataTag
  Artist : Option MetadataTag
  UserComment : Option MetadataTag
  ImageDescription : Option MetadataTag
  Dream : Bool
  prompt : Bool
  parameters : Bool
  sdMetadata : Bool
deriving DecidableEq, Repr

/-- The classifier's verdict (`{ isAI, indicators }`, src/src/App.tsx
lines 102-105). -/
structure HeuristicVerdict where
  isAI : Bool
  indicators : List String
deriving DecidableEq, Repr

/-- The fixed keyword list (src/src/App.tsx lines 28-48). -/
def aiKeywords : List String :=
  [ "midjourney", "stable diffusion", "dall-e", "dalle", "ai",
    "artificial intelligence", "generated", "synthesis", "diffusion",
    "neural", "gan", "gpt", "openai", "runway", "firefly", "adobe firefly",
    "bing image creator", "craiyon", "bluewillow" ]

/-- ASCII lower-casing of one character (`A`–`Z` to `a`–`z`). -/
def lowerChar (c : Char) : Char :=
  if 65 ≤ c.toNat && c.toNat ≤ 90 then Char.ofNat (c.toNat + 32) else c

/-- JavaScript `s.toLowerCase()`, restricted to ASCII: the keyword scan only
distinguishes ASCII letters. -/
def lowerString (s : String) : String :=
  ⟨s.data.map lowerChar⟩

/-- `startsWithChars pat l`: `pat` is a prefix of `l`. -/
def startsWithChars : List Char → List Char → Bool
  | [], _ => true
  | _ :: _, [] => false
  | p :: ps, c :: cs => p == c && startsWithChars ps cs

/-- `infixChars pat l`: `pat` occurs contiguously somewhere in `l`. -/
def infixChars (pat : List Char) : List Char → Bool
  | [] => pat.isEmpty
  | c :: cs => startsWithChars pat (c :: cs) || infixChars pat cs

/-- JavaScript `s.includes(pat)`: `pat` occurs as a contiguous substring of
`s`. -/
def strContains (s pat : String) : Bool :=
  infixChars pat.data s.data

/-- The `aiKeywords.forEach` / `indicators.push` loop shared by the four
field checks (e.g. src/src/App.tsx lines 53-57): for every keyword contained
in `lower`, one copy of `entry` is appended to the accumulator. -/
def pushMatches (acc : List String) (lower : String) (entry : String) : List String :=
  aiKeywords.foldl (fun ind kw => if strContains lower kw then ind ++ [entry] else ind) acc

/-- One `if (metadata.Field?.description) { ... forEach ... }` block
(src/src/App.tsx lines 51-58 and its three clones): skipped when the field is
absent or its description is the empty string (falsy), otherwise the
description is lower-cased and scanned against every keyword. -/
def checkDescField (acc : List String) (label : String) (field : Option MetadataTag) : List String :=
  match field with
  | none => acc
  | some t =>
      if t.description = "" then acc
      else pushMatches acc (lowerString t.description) (label ++ ": " ++ t.description)

/-- `detectAIGeneration` (src/src/App.tsx lines 22-106 = src/unnamed/part_001
lines 92-176): the six checks run in source order — Software, Artist,
UserComment, the Dream/prompt/parameters check, ImageDescription, the
parameters/prompt/sd-metadata check — each appending to the indicator list,
and `isAI` is `indicators.length > 0`. -/
def detectAIGeneration (m : ImageMetadata) : HeuristicVerdict :=
  let ind : List String := []
  let ind := checkDescField ind "Software" m.Software
  let ind := checkDescField ind "Artist" m.Artist
  let ind := checkDescField ind "Comment" m.UserComment
  let ind := if m.Dream || m.prompt || m.parameters
             then ind ++ ["Contains AI generation parameters"] else ind
  let ind := checkDescField ind "Description" m.ImageDescription
  let ind := if m.parameters || m.prompt || m.sdMetadata
             then ind ++ ["Contains AI metadata fields"] else ind
  { isAI := decide (ind.length > 0), indicators := ind }

/-! ### Specification-side views of the classifier -/

/-- How many of the fixed keywords a description matches (after
lower-casing). -/
def keywordHits (desc : String) : Nat :=
  aiKeywords.countP (fun kw => strContains (lowerString desc) kw)

/-- The indicator segment a single text field contributes: one copy of
`"<label>: <description>"` per matching keyword. -/
def fieldIndicators (label : String) (field : Option MetadataTag) : List String :=
  match field with
  | none => []
  | some t =>
      if t.description = "" then []
      else List.replicate (keywordHits t.description) (label ++ ": " ++ t.description)

/-- A text field contributes nothing: absent, empty description, or a
description matching no keyword. -/
def fieldClean (field : Option MetadataTag) : Bool :=
  match field with
  | none => true
  | some t =>
      t.description = "" || aiKeywords.all (fun kw => !(strContains (lowerString t.description) kw))

theorem foldl_push_eq (l : List String) (acc : List String) (lower entry : String) :
    l.foldl (fun ind kw => if strContains lower kw then ind ++ [entry] else ind) acc
      = acc ++ List.replicate (l.countP (fun kw => strContains lower kw)) entry := by
  induction l generalizing acc with
  | nil => simp
  | cons k l ih =>
      by_cases h : strContains lower k
      · simp [List.foldl_cons, List.countP_cons, h, ih, List.replicate_succ,
          List.append_assoc, Nat.add_comm]
      · simp [List.foldl_cons, List.countP_cons, h, ih]

theorem pushMatches_eq (acc : List String) (lower entry : String) :
    pushMatches acc lower entry
      = acc ++ List.replicate (aiKeywords.countP (fun kw => strContains lower kw)) entry :=
  foldl_push_eq aiKeywords acc lower entry

theorem checkDescField_eq (acc : List String) (label : String) (field : Option MetadataTag) :
    checkDescField acc label field = acc ++ fieldIndicators label field := by
  cases field with
  | none => simp [checkDescField, fieldIndicators]
  | some t =>
      by_cases h : t.description = ""
      · simp [checkDescField, fieldIndicators, h]
      · simp [checkDescField, fieldIndicators, h, pushMatches_eq, keywordHits]

/-- The indicator list decomposes into the six check segments, in source
order. -/
theorem detectAIGeneration_indicators (m : ImageMetadata) :
    (detectAIGeneration m).indicators =
      fieldIndicators "Software" m.Software
      ++ fieldIndicators "Artist" m.Artist
      ++ fieldIndicators "Comment" m.UserComment
      ++ (if m.Dream || m.prompt || m.parameters
          then ["Contains AI generation parameters"] else [])
      ++ fieldIndicators "Description" m.ImageDescription
      ++ (if m.parameters || m.prompt || m.sdMetadata
          then ["Contains AI metadata fields"] else []) := by
  show (let ind : List String := []
        let ind := checkDescField ind "Software" m.Software
        let ind := checkDescField ind "Artist" m.Artist
        let ind := checkDescField ind "Comment" m.UserComment
        let ind := if m.Dream || m.prompt || m.parameters
                   then ind ++ ["Contains AI generation parameters"] else ind
        let ind := checkDescField ind "Description" m.ImageDescription
        let ind := if m.parameters || m.prompt || m.sdMetadata
                   then ind ++ ["Contains AI metadata fields"] else ind
        ind) = _
  simp only [checkDescField_eq, List.nil_append]
  by_cases h1 : m.Dream || m.prompt || m.parameters <;>
    by_cases h2 : m.parameters || m.prompt || m.sdMetadata <;>
      simp [h1, h2, List.append_assoc]

theorem detectAIGeneration_isAI (m : ImageMetadata) :
    (detectAIGeneration m).isAI = decide (0 < (detectAIGeneration m).indicators.length) := rfl

theorem fieldIndicators_shape (label : String) (f : Option MetadataTag) :
    ∃ k d, fieldIndicators label f = List.replicate k (label ++ ": " ++ d) := by
  cases f with
  | none => exact ⟨0, "", by simp [fieldIndicators]⟩
  | some t =>
      by_cases h : t.description = ""
      · exact ⟨0, t.description, by simp [fieldIndicators, h]⟩
      · exact ⟨keywordHits t.description, t.description, by simp [fieldIndicators, h]⟩

theorem fieldClean_no_indicators (label : String) (f : Option MetadataTag)
    (h : fieldClean f = true) : fieldIndicators label f = [] := by
  cases f with
  | none => simp [fieldIndicators]
  | some t =>
      by_cases hd : t.description = ""
      · simp [fieldIndicators, hd]
      · have hall : aiKeywords.all
            (fun kw => !(strContains (lowerString t.description) kw)) = true := by
          simpa [fieldClean, hd] using h
        have hcount : keywordHits t.description = 0 := by
          rw [keywordHits, List.countP_eq_zero]
          intro kw hkw
          have := (List.all_eq_true.mp hall) kw hkw
          simpa using this
        simp [fieldIndicators, hd, hcount]

/-- **C2.** For every `MetadataMapping` input, the `HeuristicVerdict` returned
by the classifier satisfies `isAI == (indicators.length > 0)`: `isAI` is true
exactly when the indicator list is non-empty. -/
theorem isAI_iff_indicators_nonempty (m : ImageMetadata) :
    (detectAIGeneration m).isAI = decide ((detectAIGeneration m).indicators.length > 0) :=
  detectAIGeneration_isAI m

/-- **C6.** A single text field (Software, Artist, UserComment or
ImageDescription) whose non-empty description matches `k` of the fixed
keywords contributes `k` separate indicator entries, all quoting the
identical original description text. -/
theorem singleField_multiKeyword (t : MetadataTag) (h : t.description ≠ "") :
    (detectAIGeneration ⟨some t, none, none, none, false, false, false, false⟩).indicators
        = List.replicate (keywordHits t.description) ("Software: " ++ t.description)
  ∧ (detectAIGeneration ⟨none, some t, none, none, false, false, false, false⟩).indicators
        = List.replicate (keywordHits t.description) ("Artist: " ++ t.description)
  ∧ (detectAIGeneration ⟨none, none, some t, none, false, false, false, false⟩).indicators
        = List.replicate (keywordHits t.description) ("Comment: " ++ t.description)
  ∧ (detectAIGeneration ⟨none, none, none, some t, false, false, false, false⟩).indicators
        = List.replicate (keywordHits t.description) ("Description: " ++ t.description) := by
  refine ⟨?_, ?_, ?_, ?_⟩ <;>
    simp [detectAIGeneration_indicators, fieldIndicators, h]

/-- Witness for C6: the description `"AI Generated"` matches exactly the two
keywords `"ai"` and `"generated"`, so the Software field contributes two
identical indicator entries. -/
theorem singleField_multiKeyword_witness :
    (detectAIGeneration ⟨some ⟨"AI Generated"⟩, none, none, none,
        false, false, false, false⟩).indicators
      = List.replicate 2 ("Software: " ++ "AI Generated") := by
  have h := (singleField_multiKeyword ⟨"AI Generated"⟩ (by decide)).1
  rw [h]; decide

/-- **C7.** The indicator list always decomposes into six consecutive
segments following the fixed check order — Software, Artist, UserComment, the
Dream/prompt/parameters check, ImageDescription, the
parameters/prompt/sd-metadata check — so every indicator contributed by an
earlier check precedes every indicator contributed by a later check. -/
theorem indicators_follow_check_order (m : ImageMetadata) :
    ∃ (k1 k2 k3 k5 : Nat) (d1 d2 d3 d5 : String) (b4 b6 : Bool),
      (detectAIGeneration m).indicators =
        List.replicate k1 ("Software: " ++ d1)
        ++ List.replicate k2 ("Artist: " ++ d2)
        ++ List.replicate k3 ("Comment: " ++ d3)
        ++ (if b4 then ["Contains AI generation parameters"] else [])
        ++ List.replicate k5 ("Description: " ++ d5)
        ++ (if b6 then ["Contains AI metadata fields"] else []) := by
  obtain ⟨k1, d1, h1⟩ := fieldIndicators_shape "Software" m.Software
  obtain ⟨k2, d2, h2⟩ := fieldIndicators_shape "Artist" m.Artist
  obtain ⟨k3, d3, h3⟩ := fieldIndicators_shape "Comment" m.UserComment
  obtain ⟨k5, d5, h5⟩ := fieldIndicators_shape "Description" m.ImageDescription
  exact ⟨k1, k2, k3, k5, d1, d2, d3, d5,
    m.Dream || m.prompt || m.parameters, m.parameters || m.prompt || m.sdMetadata,
    by rw [detectAIGeneration_indicators, h1, h2, h3, h5]; rfl⟩

/-- **C9.** A metadata mapping with no recognized signal — every text field
absent, empty or matching no keyword, and no truthy Dream/prompt/parameters/
sd-metadata key — classifies as `{isAI := false, indicators := []}`. -/
theorem no_signal_no_ai (m : ImageMetadata)
    (h1 : fieldClean m.Software = true) (h2 : fieldClean m.Artist = true)
    (h3 : fieldClean m.UserComment = true) (h4 : fieldClean m.ImageDescription = true)
    (h5 : m.Dream = false) (h6 : m.prompt = false)
    (h7 : m.parameters = false) (h8 : m.sdMetadata = false) :
    detectAIGeneration m = { isAI := false, indicators := [] } := by
  have hi : (detectAIGeneration m).indicators = [] := by
    rw [detectAIGeneration_indicators,
      fieldClean_no_indicators "Software" m.Software h1,
      fieldClean_no_indicators "Artist" m.Artist h2,
      fieldClean_no_indicators "Comment" m.UserComment h3,
      fieldClean_no_indicators "Description" m.ImageDescription h4]
    simp [h5, h6, h7, h8]
  have hv : detectAIGeneration m
      = ⟨decide (0 < (detectAIGeneration m).indicators.length),
         (detectAIGeneration m).indicators⟩ := rfl
  rw [hv, hi]
  rfl

/-- Witness for C9: the empty metadata mapping classifies as not-AI with no
indicators. -/
theorem no_signal_no_ai_witness :
    detectAIGeneration ⟨none, none, none, none, false, false, false, false⟩
      = { isAI := false, indicators := [] } :=
  no_signal_no_ai _ rfl rfl rfl rfl rfl rfl rfl rfl

/-! ## Remote verifier (`GeminiService`, src/src/App.tsx lines 509-618)

`detectAIImage` throws when unconfigured, otherwise encodes the image, calls
the model, strips code fences from the reply, parses it as JSON and reads
the four result keys with `||`-defaulting (lines 601-606).  The JSON values
that can sit under those keys are embedded as `JsonValue`; a missing key is
`Option.none`.  Array elements are only ever displayed as strings, so array
values carry `List String`. -/

/-- A JSON value as read off the parsed model reply. -/
inductive JsonValue where
  | jnull : JsonValue
  | jbool : Bool → JsonValue
  | jnum : Int → JsonValue
  | jstr : String → JsonValue
  | jarr : List String → JsonValue
deriving DecidableEq, Repr

/-- JavaScript truthiness of a JSON value: `null`, `false`, `0` and `""` are
falsy; everything else (including the empty array) is truthy. -/
def truthy : JsonValue → Bool
  | .jnull => false
  | .jbool b => b
  | .jnum n => n != 0
  | .jstr s => s != ""
  | .jarr _ => true

/-- The object produced by `JSON.parse` on the cleaned reply, restricted to
the four keys the code reads; `none` is an absent key. -/
structure ParsedReply where
  isAIGenerated : Option JsonValue
  confidence : Option JsonValue
  reasoning : Option JsonValue
  visualIndicators : Option JsonValue
deriving DecidableEq, Repr

/-- `GeminiDetectionResult` (src/src/App.tsx lines 511-516).  TypeScript does
not check the parsed values at runtime, so each field holds whatever
`JsonValue` the `||`-defaulting produced. -/
structure GeminiDetectionResult where
  isAIGenerated : JsonValue
  confidence : JsonValue
  reasoning : JsonValue
  visualIndicators : JsonValue
deriving DecidableEq, Repr

/-- JavaScript `x || d`: the value when present and truthy, the default
otherwise. -/
def jsOr (v : Option JsonValue) (d : JsonValue) : JsonValue :=
  match v with
  | none => d
  | some x => if truthy x then x else d

/-- The result mapping of `detectAIImage` (src/src/App.tsx lines 601-606):
`isAIGenerated: parsed.isAIGenerated || false`, `confidence:
parsed.confidence || 0`, `reasoning: parsed.reasoning || "No reasoning
provided"`, `visualIndicators: parsed.visualIndicators || []`. -/
def mapGeminiResult (parsed : ParsedReply) : GeminiDetectionResult :=
  { isAIGenerated := jsOr parsed.isAIGenerated (.jbool false)
    confidence := jsOr parsed.confidence (.jnum 0)
    reasoning := jsOr parsed.reasoning (.jstr "No reasoning provided")
    visualIndicators := jsOr parsed.visualIndicators (.jarr []) }

/-- The service state: `configured` is true exactly when both `genAI` and
`model` were set, i.e. the constructor saw a truthy, non-placeholder API key
(src/src/App.tsx lines 522-534). -/
structure GeminiService where
  configured : Bool
deriving DecidableEq, Repr

/-- The constructor (src/src/App.tsx lines 522-530): clients are created only
for a present, non-empty key different from `"your_api_key_here"`. -/
def mkGeminiService (apiKey : Option String) : GeminiService :=
  { configured :=
      match apiKey with
      | none => false
      | some k => decide (k ≠ "" ∧ k ≠ "your_api_key_here") }

/-- `isConfigured()` (src/src/App.tsx lines 532-534). -/
def GeminiService.isConfigured (s : GeminiService) : Bool :=
  s.configured

/-- The errors `detectAIImage` can throw: the configuration error of lines
550-552, or the wrapped remote failure of lines 609-613. -/
inductive GeminiError where
  | configuration : GeminiError
  | analysisFailed : String → GeminiError
deriving DecidableEq, Repr

/-- `detectAIImage` (src/src/App.tsx lines 548-615).  The remote exchange —
base64 encoding, the network call, fence stripping and `JSON.parse` — is
abstracted as `exchange`: `.error msg` is any throw inside the `try` block
(network failure, non-2xx reply, JSON parse failure), `.ok parsed` a reply
whose cleaned text parsed to a JSON object.  The configuration check runs
before the `try`, so an unconfigured service fails with the configuration
error without attempting the exchange. -/
def detectAIImage (s : GeminiService) (exchange : Except String ParsedReply) :
    Except GeminiError GeminiDetectionResult :=
  if s.isConfigured then
    match exchange with
    | .ok parsed => .ok (mapGeminiResult parsed)
    | .error msg => .error (.analysisFailed ("Failed to analyze image: " ++ msg))
  else
    .error .configuration

/-- The orchestrator's remote stage (src/unnamed/part_001 lines 219-237):
`detectAIImage` is invoked only behind `geminiService.isConfigured()`;
`none` means the stage was skipped. -/
def runGeminiStage (svc : GeminiService) (exchange : Except String ParsedReply) :
    Option (Except GeminiError GeminiDetectionResult) :=
  if svc.isConfigured then some (detectAIImage svc exchange) else none

/-! ### Remote result-mapping theorems -/

/-- **C3, counterexample.** The claim says out-of-range confidence values are
clamped or defaulted into `[0,100]`; in fact a parsed reply supplying
`confidence: 150` is returned as 150 — no clamping happens. -/
theorem confidence_not_clamped :
    (mapGeminiResult ⟨some (.jbool true), some (.jnum 150),
        some (.jstr "out of range"), some (.jarr [])⟩).confidence
      = .jnum 150 ∧ ¬((150 : Int) ≤ 100) := by
  exact ⟨rfl, by decide⟩

/-- **C3, amended.** Whenever the parsed reply supplies a confidence value,
the returned confidence is that value verbatim when it is truthy — with no
clamping into `[0,100]` — and the default `0` when it is falsy (a missing
key also defaults to `0`). -/
theorem confidence_passthrough (p : ParsedReply) (v : JsonValue)
    (hv : p.confidence = some v) :
    (mapGeminiResult p).confidence = (if truthy v then v else .jnum 0) := by
  simp [mapGeminiResult, jsOr, hv]

/-- Witness for the amended C3 at the counterexample input: confidence 150 is
passed through unchanged. -/
theorem confidence_passthrough_witness :
    (mapGeminiResult ⟨some (.jbool true), some (.jnum 150),
        some (.jstr "out of range"), some (.jarr [])⟩).confidence = .jnum 150 := by
  have h := confidence_passthrough
    ⟨some (.jbool true), some (.jnum 150), some (.jstr "out of range"), some (.jarr [])⟩
    (.jnum 150) rfl
  rw [h]; decide

/-- **C4, counterexample.** The claim says keys present in the parsed object
are passed through; but a present `reasoning` key holding the empty string is
replaced by the default `"No reasoning provided"`. -/
theorem present_key_not_passed_through :
    (mapGeminiResult ⟨some (.jbool true), some (.jnum 50),
        some (.jstr ""), some (.jarr [])⟩).reasoning
      = .jstr "No reasoning provided"
    ∧ JsonValue.jstr "No reasoning provided" ≠ .jstr "" := by
  exact ⟨rfl, by decide⟩

/-- **C4, amended.** Each of the four result keys missing from the parsed
object is replaced by its default (`isAIGenerated` ↦ `false`, `confidence` ↦
`0`, `reasoning` ↦ `"No reasoning provided"`, `visualIndicators` ↦ `[]`);
a present key is passed through only when its value is truthy (a present
falsy value is also replaced by the default). -/
theorem gemini_result_defaults (p : ParsedReply) :
    (p.isAIGenerated = none → (mapGeminiResult p).isAIGenerated = .jbool false)
  ∧ (p.confidence = none → (mapGeminiResult p).confidence = .jnum 0)
  ∧ (p.reasoning = none → (mapGeminiResult p).reasoning = .jstr "No reasoning provided")
  ∧ (p.visualIndicators = none → (mapGeminiResult p).visualIndicators = .jarr [])
  ∧ (∀ v, p.isAIGenerated = some v → truthy v = true →
      (mapGeminiResult p).isAIGenerated = v)
  ∧ (∀ v, p.confidence = some v → truthy v = true →
      (mapGeminiResult p).confidence = v)
  ∧ (∀ v, p.reasoning = some v → truthy v = true →
      (mapGeminiResult p).reasoning = v)
  ∧ (∀ v, p.visualIndicators = some v → truthy v = true →
      (mapGeminiResult p).visualIndicators = v) := by
  refine ⟨fun h => ?_, fun h => ?_, fun h => ?_, fun h => ?_,
    fun v hv ht => ?_, fun v hv ht => ?_, fun v hv ht => ?_, fun v hv ht => ?_⟩ <;>
    simp [mapGeminiResult, jsOr, *]

/-- Witness for the amended C4: a reply missing `reasoning` gets the default
string, and a truthy present `confidence` passes through. -/
theorem gemini_result_defaults_witness :
    ((mapGeminiResult ⟨none, none, none, none⟩).reasoning
        = .jstr "No reasoning provided")
    ∧ ((mapGeminiResult ⟨some (.jbool true), some (.jnum 85),
          some (.jstr "looks synthetic"), some (.jarr ["smooth skin"])⟩).confidence
        = .jnum 85) :=
  ⟨(gemini_result_defaults ⟨none, none, none, none⟩).2.2.1 rfl,
   (gemini_result_defaults ⟨some (.jbool true), some (.jnum 85),
      some (.jstr "looks synthetic"), some (.jarr ["smooth skin"])⟩).2.2.2.2.2.1
     (.jnum 85) rfl (by decide)⟩

/-- **C10.** The `||`-defaulting triggers on any falsy value, not only on
missing keys: a present key holding a falsy value (`null`, `false`, `0`,
`""`) is replaced by that key's default in the returned result. -/
theorem falsy_values_defaulted (p : ParsedReply) :
    (∀ v, p.isAIGenerated = some v → truthy v = false →
      (mapGeminiResult p).isAIGenerated = .jbool false)
  ∧ (∀ v, p.confidence = some v → truthy v = false →
      (mapGeminiResult p).confidence = .jnum 0)
  ∧ (∀ v, p.reasoning = some v → truthy v = false →
      (mapGeminiResult p).reasoning = .jstr "No reasoning provided")
  ∧ (∀ v, p.visualIndicators = some v → truthy v = false →
      (mapGeminiResult p).visualIndicators = .jarr []) := by
  refine ⟨fun v hv ht => ?_, fun v hv ht => ?_, fun v hv ht => ?_, fun v hv ht => ?_⟩ <;>
    simp [mapGeminiResult, jsOr, *]

/-- Witness for C10: a present empty-string `reasoning` yields the default
string, and a present `null` `visualIndicators` yields the empty list. -/
theorem falsy_values_defaulted_witness :
    ((mapGeminiResult ⟨some .jnull, some (.jnum 0), some (.jstr ""),
        some .jnull⟩).reasoning = .jstr "No reasoning provided")
    ∧ ((mapGeminiResult ⟨some .jnull, some (.jnum 0), some (.jstr ""),
        some .jnull⟩).visualIndicators = .jarr []) :=
  ⟨(falsy_values_defaulted ⟨some .jnull, some (.jnum 0), some (.jstr ""),
      some .jnull⟩).2.2.1 (.jstr "") rfl (by decide),
   (falsy_values_defaulted ⟨some .jnull, some (.jnum 0), some (.jstr ""),
      some .jnull⟩).2.2.2 .jnull rfl (by decide)⟩

/-- **C8.** An unconfigured service fails `detectAIImage` with the
configuration error without attempting the exchange; the orchestrator's
remote stage only ever invokes `detectAIImage` behind `isConfigured()`, so a
configuration error never reaches the orchestrator (and hence the user);
and the constructor leaves the service unconfigured for a missing, empty or
placeholder credential. -/
theorem configuration_error_gated (svc : GeminiService)
    (exchange : Except String ParsedReply) :
    (svc.isConfigured = false → detectAIImage svc exchange = .error .configuration)
  ∧ (∀ r, runGeminiStage svc exchange = some r →
      r ≠ Except.error GeminiError.configuration)
  ∧ (mkGeminiService none).isConfigured = false
  ∧ (mkGeminiService (some "")).isConfigured = false
  ∧ (mkGeminiService (some "your_api_key_here")).isConfigured = false := by
  refine ⟨fun h => by simp [detectAIImage, h], fun r hr => ?_, rfl, by decide, by decide⟩
  by_cases hc : svc.isConfigured
  · have : r = detectAIImage svc exchange := by
      simpa [runGeminiStage, hc] using hr.symm
    subst this
    cases exchange with
    | ok parsed => simp [detectAIImage, hc]
    | error msg => simp [detectAIImage, hc]
  · simp [runGeminiStage, hc] at hr

/-- Witness for C8: the unconfigured service (placeholder key) fails with the
configuration error, and a configured service's gated stage never returns
it. -/
theorem configuration_error_gated_witness :
    (detectAIImage (mkGeminiService (some "your_api_key_here")) (.error "net down")
        = .error .configuration)
    ∧ ((Except.error (GeminiError.analysisFailed "Failed to analyze image: net down")
          : Except GeminiError GeminiDetectionResult)
        ≠ Except.error GeminiError.configuration) :=
  ⟨(configuration_error_gated (mkGeminiService (some "your_api_key_here"))
      (.error "net down")).1 rfl,
   (configuration_error_gated (mkGeminiService (some "real-key"))
      (.error "net down")).2.1
     (Except.error (GeminiError.analysisFailed "Failed to analyze image: net down"))
     rfl⟩

/-! ## Orchestrator record slot (`processFile`, src/unnamed/part_001 lines 178-243)

`processFile` manipulates the single React `analysis` slot:

* on entry it clears the slot (`setAnalysis(null)`, line 181);
* after metadata extraction it stores the first snapshot
  (`setAnalysis(analysisData)`, line 216);
* when its Gemini call resolves it merges the verdict into whatever record
  currently occupies the slot
  (`setAnalysis((prev) => prev ? { ...prev, geminiAnalysis: geminiResult } : prev)`,
  lines 224-226) — the functional update carries no identity of the file the
  verdict belongs to.

The runtime is a single-threaded event loop, so the slot's history is a
sequence of these three updates; concurrent analyses interleave their
updates in resolution order.  `runEvents` folds such a sequence over the
slot. -/

/-- `ImageAnalysis` (src/unnamed/part_001 lines 17-25): the record stored in
the `analysis` slot; `geminiAnalysis` is absent until the remote verdict is
merged in. -/
structure ImageAnalysis where
  fileName : String
  fileSize : String
  dimensions : String
  metadata : ImageMetadata
  isAIGenerated : Bool
  aiIndicators : List String
  geminiAnalysis : Option GeminiDetectionResult
deriving DecidableEq, Repr

/-- One `setAnalysis` call of `processFile`. -/
inductive UIEvent where
  /-- `setAnalysis(null)` on entry to `processFile` (line 181). -/
  | reset : UIEvent
  /-- `setAnalysis(analysisData)`: the first snapshot (line 216). -/
  | snapshot : ImageAnalysis → UIEvent
  /-- The resolution of some in-flight `detectAIImage` call: merges its
  verdict into the current record if one is present (lines 224-226). -/
  | remoteDone : GeminiDetectionResult → UIEvent

/-- The effect of one `setAnalysis` call on the slot. -/
def applyEvent (slot : Option ImageAnalysis) : UIEvent → Option ImageAnalysis
  | .reset => none
  | .snapshot rec => some rec
  | .remoteDone res => slot.map (fun r => { r with geminiAnalysis := some res })

/-- The slot after a sequence of `setAnalysis` calls. -/
def runEvents (slot : Option ImageAnalysis) (events : List UIEvent) : Option ImageAnalysis :=
  events.foldl applyEvent slot

/-- **C1.** The claim says a late remote verdict for a superseded file A can
never be attached to the final record for file B.  The code has no
record-identity tag on in-flight calls: in the legal interleaving where
`processFile(B)` runs both its reset and its snapshot while A's
`detectAIImage` is still in flight, A's verdict is merged into B's record —
the final record carries B's file name and A's remote verdict. -/
theorem late_remote_attaches_to_new_record :
    runEvents none
      [ UIEvent.reset,
        UIEvent.snapshot ⟨"A.jpg", "10.00 KB", "512 x 512",
          ⟨none, none, none, none, false, false, false, false⟩, false, [], none⟩,
        UIEvent.reset,
        UIEvent.snapshot ⟨"B.jpg", "20.00 KB", "256 x 256",
          ⟨none, none, none, none, false, false, false, false⟩, false, [], none⟩,
        UIEvent.remoteDone ⟨.jbool true, .jnum 90, .jstr "verdict for A", .jarr []⟩ ]
      = some ⟨"B.jpg", "20.00 KB", "256 x 256",
          ⟨none, none, none, none, false, false, false, false⟩, false, [],
          some ⟨.jbool true, .jnum 90, .jstr "verdict for A", .jarr []⟩⟩ := rfl


/-! ## Code-fence stripping of the model reply (src/src/App.tsx lines 593-599)

The reply text is cleaned with
`text.replace(/```json\n?/g, "").replace(/```\n?/g, "").trim()` before
`JSON.parse`.  Each `replace` is a single left-to-right scan deleting every
(non-overlapping) occurrence of the pattern — three backticks, `json` for the
first pattern, and one directly following newline if present — embedded here
as the scanners `stripJsonFence` and `stripFence` on character lists.
`trim` is modelled on ASCII whitespace, which suffices for the fence and
newline characters at stake.  `cleanedText` is the composition; two replies
with equal `cleanedText` parse to identical verdicts, so the fenced/unfenced
equivalence is stated on `cleanedText`. -/


def jsonFence : List Char := ['`', '`', '`', 'j', 's', 'o', 'n']

def tick3 : List Char := ['`', '`', '`']

def nlTick3 : List Char := '\n' :: tick3

def stripJsonFence : List Char → List Char
  | '`' :: '`' :: '`' :: 'j' :: 's' :: 'o' :: 'n' :: '\n' :: rest => stripJsonFence rest
  | '`' :: '`' :: '`' :: 'j' :: 's' :: 'o' :: 'n' :: rest => stripJsonFence rest
  | c :: rest => c :: stripJsonFence rest
  | [] => []

def stripFence : List Char → List Char
  | '`' :: '`' :: '`' :: '\n' :: rest => stripFence rest
  | '`' :: '`' :: '`' :: rest => stripFence rest
  | c :: rest => c :: stripFence rest
  | [] => []

def headIsJsonFence (l : List Char) : Bool := decide (l.take 7 = jsonFence)

def headIsTick3 (l : List Char) : Bool := decide (l.take 3 = tick3)

-- shape extraction
theorem headIsJsonFence_shape (l : List Char) (h : headIsJsonFence l = true) :
    ∃ rest, l = jsonFence ++ rest := by
  refine ⟨l.drop 7, ?_⟩
  have ht : l.take 7 = jsonFence := by simpa [headIsJsonFence] using h
  rw [← ht, List.take_append_drop]

theorem headIsTick3_shape (l : List Char) (h : headIsTick3 l = true) :
    ∃ rest, l = tick3 ++ rest := by
  refine ⟨l.drop 3, ?_⟩
  have ht : l.take 3 = tick3 := by simpa [headIsTick3] using h
  rw [← ht, List.take_append_drop]

-- appending something starting with a newline cannot create a head match
theorem take_append_nl_ne (n : Nat) (pat l s : List Char)
    (hnl : '\n' ∉ pat) (h : ¬ l.take n = pat) : ¬ (l ++ '\n' :: s).take n = pat := by
  intro heq
  by_cases hl : n ≤ l.length
  · rw [List.take_append_of_le_length hl] at heq
    exact h heq
  · push_neg at hl
    rw [List.take_append_eq_append_take] at heq
    have : '\n' ∈ pat := by
      rw [← heq]
      apply List.mem_append_right
      have hpos : 0 < n - l.length := by omega
      cases hn : n - l.length with
      | zero => omega
      | succ k => simp [List.take]
    exact hnl this

-- step lemmas via eq_def + split
theorem stripJsonFence_cons (c : Char) (l : List Char)
    (h : headIsJsonFence (c :: l) = false) :
    stripJsonFence (c :: l) = c :: stripJsonFence l := by
  rw [stripJsonFence.eq_def]
  split <;> simp_all [headIsJsonFence, jsonFence]

theorem stripFence_cons (c : Char) (l : List Char)
    (h : headIsTick3 (c :: l) = false) :
    stripFence (c :: l) = c :: stripFence l := by
  rw [stripFence.eq_def]
  split <;> simp_all [headIsTick3, tick3]

theorem stripJsonFence_step_nl (l : List Char) :
    stripJsonFence (jsonFence ++ '\n' :: l) = stripJsonFence l := rfl

theorem stripJsonFence_step_other (c : Char) (l : List Char) (hc : c ≠ '\n') :
    stripJsonFence (jsonFence ++ c :: l) = stripJsonFence (c :: l) :=
  stripJsonFence.eq_2 (c :: l) (fun _ h => by injection h with h1 _; exact hc h1)

theorem stripFence_step_nl (l : List Char) :
    stripFence (tick3 ++ '\n' :: l) = stripFence l := rfl

theorem stripFence_step_other (c : Char) (l : List Char) (hc : c ≠ '\n') :
    stripFence (tick3 ++ c :: l) = stripFence (c :: l) :=
  stripFence.eq_2 (c :: l) (fun _ h => by injection h with h1 _; exact hc h1)

theorem headIsTick3_of_ne1 (c : Char) (l : List Char) (h : c ≠ '`') :
    headIsTick3 (c :: l) = false := by
  simp [headIsTick3, tick3, List.take_succ_cons, h]

theorem headIsTick3_of_ne2 (c c2 : Char) (l : List Char) (h : c2 ≠ '`') :
    headIsTick3 (c :: c2 :: l) = false := by
  simp [headIsTick3, tick3, List.take_succ_cons, h]

theorem headIsTick3_of_ne3 (c c2 c3 : Char) (l : List Char) (h : c3 ≠ '`') :
    headIsTick3 (c :: c2 :: c3 :: l) = false := by
  simp [headIsTick3, tick3, List.take_succ_cons, h]

theorem stripJsonFence_append_nlTick3 (b : List Char) :
    stripJsonFence (b ++ nlTick3) = stripJsonFence b ++ nlTick3
  ∨ stripJsonFence (b ++ nlTick3) = stripJsonFence b ++ tick3 := by
  have H : ∀ (n : Nat) (b : List Char), b.length ≤ n →
      (stripJsonFence (b ++ nlTick3) = stripJsonFence b ++ nlTick3
        ∨ stripJsonFence (b ++ nlTick3) = stripJsonFence b ++ tick3) := by
    intro n
    induction n with
    | zero =>
        intro b hb
        have hbnil : b = [] := List.eq_nil_of_length_eq_zero (Nat.le_zero.mp hb)
        subst hbnil
        left; rfl
    | succ n ih =>
        intro b hb
        by_cases hm : headIsJsonFence b = true
        · obtain ⟨rest, rfl⟩ := headIsJsonFence_shape b hm
          rcases rest with _ | ⟨c, r2⟩
          · right; rfl
          · by_cases hc : c = '\n'
            · subst hc
              rw [show (jsonFence ++ '\n' :: r2) ++ nlTick3
                    = jsonFence ++ '\n' :: (r2 ++ nlTick3) from by simp,
                stripJsonFence_step_nl, stripJsonFence_step_nl]
              refine ih r2 ?_
              simp only [List.length_append, jsonFence, List.length_cons] at hb ⊢
              omega
            · rw [show (jsonFence ++ c :: r2) ++ nlTick3
                    = jsonFence ++ c :: (r2 ++ nlTick3) from by simp,
                stripJsonFence_step_other c _ hc, stripJsonFence_step_other c r2 hc]
              refine ih (c :: r2) ?_
              simp only [List.length_append, jsonFence, List.length_cons] at hb ⊢
              omega
        · rcases b with _ | ⟨c, rest⟩
          · left; rfl
          · have hm' : headIsJsonFence (c :: rest) = false := by
              simpa using hm
            have hm2 : headIsJsonFence (c :: (rest ++ nlTick3)) = false := by
              have hne := take_append_nl_ne 7 jsonFence (c :: rest) tick3 (by decide)
                (by simpa [headIsJsonFence] using hm')
              simpa [headIsJsonFence, nlTick3] using hne
            have e1 : stripJsonFence (c :: rest) = c :: stripJsonFence rest :=
              stripJsonFence_cons c rest hm'
            have e2 : stripJsonFence (c :: (rest ++ nlTick3))
                = c :: stripJsonFence (rest ++ nlTick3) :=
              stripJsonFence_cons c (rest ++ nlTick3) hm2
            rw [List.cons_append, e1, e2]
            rcases ih rest (by simpa using Nat.le_of_succ_le_succ hb) with h | h
            · left; rw [h, List.cons_append]
            · right; rw [h, List.cons_append]
  exact H b.length b le_rfl

theorem stripFence_append_tick3 (x : List Char) :
    stripFence (x ++ tick3) = stripFence x := by
  have H : ∀ (n : Nat) (x : List Char), x.length ≤ n →
      stripFence (x ++ tick3) = stripFence x := by
    intro n
    induction n with
    | zero =>
        intro x hx
        have hxnil : x = [] := List.eq_nil_of_length_eq_zero (Nat.le_zero.mp hx)
        subst hxnil
        rfl
    | succ n ih =>
        intro x hx
        by_cases hm : headIsTick3 x = true
        · obtain ⟨rest, rfl⟩ := headIsTick3_shape x hm
          rcases rest with _ | ⟨c, r2⟩
          · rfl
          · by_cases hc : c = '\n'
            · subst hc
              rw [show (tick3 ++ '\n' :: r2) ++ tick3
                    = tick3 ++ '\n' :: (r2 ++ tick3) from by simp,
                stripFence_step_nl, stripFence_step_nl]
              refine ih r2 ?_
              simp only [List.length_append, tick3, List.length_cons] at hx ⊢
              omega
            · rw [show (tick3 ++ c :: r2) ++ tick3
                    = tick3 ++ c :: (r2 ++ tick3) from by simp,
                stripFence_step_other c _ hc, stripFence_step_other c r2 hc]
              refine ih (c :: r2) ?_
              simp only [List.length_append, tick3, List.length_cons] at hx ⊢
              omega
        · have hm' : headIsTick3 x = false := by simpa using hm
          rcases x with _ | ⟨c, rest⟩
          · rfl
          · simp only [List.cons_append]
            by_cases hc : c = '`'
            · subst hc
              rcases rest with _ | ⟨c2, r2⟩
              · rfl
              · simp only [List.cons_append]
                by_cases hc2 : c2 = '`'
                · subst hc2
                  rcases r2 with _ | ⟨c3, r3⟩
                  · rfl
                  · simp only [List.cons_append]
                    have hc3 : c3 ≠ '`' := by
                      intro hcontra
                      subst hcontra
                      simp [headIsTick3, tick3, List.take_succ_cons] at hm'
                    rw [stripFence_cons _ _ (headIsTick3_of_ne3 _ _ _ _ hc3),
                      stripFence_cons _ _ hm',
                      stripFence_cons _ _ (headIsTick3_of_ne2 _ _ _ hc3),
                      stripFence_cons _ _ (headIsTick3_of_ne2 _ _ _ hc3)]
                    have hlen : (c3 :: r3).length ≤ n := by
                      simp only [List.length_cons] at hx ⊢; omega
                    have hrec := ih (c3 :: r3) hlen
                    simp only [List.cons_append] at hrec
                    rw [hrec]
                · rw [stripFence_cons _ _ (headIsTick3_of_ne2 _ _ _ hc2),
                    stripFence_cons _ _ hm']
                  have hlen : (c2 :: r2).length ≤ n := by
                    simp only [List.length_cons] at hx ⊢; omega
                  have hrec := ih (c2 :: r2) hlen
                  simp only [List.cons_append] at hrec
                  rw [hrec]
            · rw [stripFence_cons _ _ (headIsTick3_of_ne1 _ _ hc),
                stripFence_cons _ _ hm']
              have hlen : rest.length ≤ n := by
                simp only [List.length_cons] at hx ⊢; omega
              rw [ih rest hlen]
  exact H x.length x le_rfl

theorem stripFence_append_nlTick3 (x : List Char) :
    stripFence (x ++ nlTick3) = stripFence x
  ∨ stripFence (x ++ nlTick3) = stripFence x ++ ['\n'] := by
  have H : ∀ (n : Nat) (x : List Char), x.length ≤ n →
      (stripFence (x ++ nlTick3) = stripFence x
        ∨ stripFence (x ++ nlTick3) = stripFence x ++ ['\n']) := by
    intro n
    induction n with
    | zero =>
        intro x hx
        have hxnil : x = [] := List.eq_nil_of_length_eq_zero (Nat.le_zero.mp hx)
        subst hxnil
        right; rfl
    | succ n ih =>
        intro x hx
        by_cases hm : headIsTick3 x = true
        · obtain ⟨rest, rfl⟩ := headIsTick3_shape x hm
          rcases rest with _ | ⟨c, r2⟩
          · left; rfl
          · by_cases hc : c = '\n'
            · subst hc
              rw [show (tick3 ++ '\n' :: r2) ++ nlTick3
                    = tick3 ++ '\n' :: (r2 ++ nlTick3) from by simp,
                stripFence_step_nl, stripFence_step_nl]
              refine ih r2 ?_
              simp only [List.length_append, tick3, List.length_cons] at hx ⊢
              omega
            · rw [show (tick3 ++ c :: r2) ++ nlTick3
                    = tick3 ++ c :: (r2 ++ nlTick3) from by simp,
                stripFence_step_other c _ hc, stripFence_step_other c r2 hc]
              refine ih (c :: r2) ?_
              simp only [List.length_append, tick3, List.length_cons] at hx ⊢
              omega
        · have hm' : headIsTick3 x = false := by simpa using hm
          rcases x with _ | ⟨c, rest⟩
          · right; rfl
          · have hm2 : headIsTick3 (c :: (rest ++ nlTick3)) = false := by
              have hne := take_append_nl_ne 3 tick3 (c :: rest) tick3 (by decide)
                (by simpa [headIsTick3] using hm')
              simpa [headIsTick3, nlTick3] using hne
            rw [List.cons_append, stripFence_cons _ _ hm2, stripFence_cons _ _ hm']
            rcases ih rest (by simpa using Nat.le_of_succ_le_succ hx) with h | h
            · left; rw [h]
            · right; rw [h, List.cons_append]
  exact H x.length x le_rfl

def isWsChar (c : Char) : Bool :=
  c = ' ' || c = '\t' || c = '\n' || c = '\r'

def trimChars (l : List Char) : List Char :=
  ((l.dropWhile isWsChar).reverse.dropWhile isWsChar).reverse

def cleanedText (text : String) : String :=
  ⟨trimChars (stripFence (stripJsonFence text.data))⟩

theorem dropWhile_append_char (p : Char → Bool) (l1 l2 : List Char) :
    (l1 ++ l2).dropWhile p
      = if (l1.dropWhile p).isEmpty then l2.dropWhile p else l1.dropWhile p ++ l2 := by
  induction l1 with
  | nil => simp
  | cons c l ih =>
      by_cases h : p c <;> simp [List.dropWhile_cons, h, ih]

theorem trimChars_append_nl (y : List Char) :
    trimChars (y ++ ['\n']) = trimChars y := by
  unfold trimChars
  rw [dropWhile_append_char]
  by_cases h : (y.dropWhile isWsChar).isEmpty = true
  · rw [if_pos h, List.isEmpty_iff.mp h]
    simp [List.dropWhile, isWsChar]
  · rw [if_neg h, List.reverse_append]
    simp only [List.reverse_cons, List.reverse_nil, List.nil_append, List.singleton_append]
    rw [List.dropWhile_cons]
    simp [isWsChar]

theorem string_data_append (a b : String) : (a ++ b).data = a.data ++ b.data := by
  cases a; cases b; rfl

/-- **C5.** For every reply body, wrapping it in markdown code-fence markers
(` ```json ` before, ` ``` ` after) yields, after fence stripping and
trimming, exactly the same cleaned text as the unfenced body itself — hence
`JSON.parse` sees identical input and produces an identical `RemoteVerdict`.
The equivalence holds for arbitrary bodies, in particular for every JSON
body. -/
theorem fenced_reply_cleans_identically (body : String) :
    cleanedText ("```json\n" ++ body ++ "\n```") = cleanedText body := by
  have hdata : ("```json\n" ++ body ++ "\n```").data
      = jsonFence ++ '\n' :: (body.data ++ nlTick3) := by
    rw [string_data_append, string_data_append]
    show (jsonFence ++ ['\n']) ++ body.data ++ nlTick3 = _
    simp [List.append_assoc]
  rw [cleanedText, cleanedText, hdata, stripJsonFence_step_nl]
  rcases stripJsonFence_append_nlTick3 body.data with h | h
  · rw [h]
    rcases stripFence_append_nlTick3 (stripJsonFence body.data) with h2 | h2
    · rw [h2]
    · rw [h2, trimChars_append_nl]
  · rw [h, stripFence_append_tick3]
